import Mathlib

/-!
Verification of the client-side PAM coordination layer of webdav-server-rs
(`src/pam/src/pamclient.rs`).

The Rust source is shallowly embedded: bytes are natural numbers (every
narrowing cast the source performs appears as an explicit `% 256`), the
`u64` request-id counter is a natural reduced `% 2 ^ 64` where the source
can wrap, channel and socket I/O is modelled by explicit event traces, and
the `panic!` branches of the source are modelled as a distinguished abort
outcome.  Types that live in sibling modules of the crate (`crate::pam`,
`crate::pamserver`) are not part of the given source tree and are modelled
from the spec; their doc comments say so explicitly.
-/

namespace PamClient

/-- Modelled from the spec: `PamError` is declared in `crate::pam`, which is
not part of the given source tree.  It wraps a numeric error code; only the
identity of the two reserved transport codes matters for the claims. -/
structure PamError where
  code : Nat
  deriving DecidableEq

/-- Modelled from the spec: reserved transport error code for a failed
submission to the request queue (`crate::pam`; the spec fixes no numeric
value, only that the code is a distinguished constant). -/
def ERR_SEND_TO_SERVER : Nat := 101

/-- Modelled from the spec: reserved transport error code for a reply slot
dropped before fulfillment (`crate::pam`). -/
def ERR_RECV_FROM_SERVER : Nat := 102

/-- Request sent to the server process (`PamRequest`, lines 25-32).  Rust
strings are UTF-8 byte vectors and are embedded as lists of byte values. -/
structure PamRequest where
  id : Nat
  user : List Nat
  pass : List Nat
  service : List Nat
  remip : Option (List Nat)
  deriving DecidableEq

/-- Decidable equality for the result payload carried by a response. -/
instance : DecidableEq (Except PamError Unit) := fun a b =>
  match a, b with
  | .ok (), .ok () => isTrue rfl
  | .error e1, .error e2 =>
      if h : e1 = e2 then isTrue (by rw [h]) else
        isFalse (fun hc => h (by cases hc; rfl))
  | .ok (), .error _ => isFalse (fun hc => Except.noConfusion hc)
  | .error _, .ok () => isFalse (fun hc => Except.noConfusion hc)

/-- Modelled from the spec: `PamResponse` is declared in `crate::pamserver`
(not part of the given source tree); per the spec's data model it carries
the answered request id and the authentication result. -/
structure PamResponse where
  id : Nat
  result : Except PamError Unit
  deriving DecidableEq

/-- Item sent over the request channel (`PamRequest1`, lines 35-38).  The
oneshot reply sender is embedded as an abstract slot token. -/
structure PamRequest1 where
  req : PamRequest
  resp_chan : Nat
  deriving DecidableEq

/-- Modulus of the `u64` id counter. -/
def U64MOD : Nat := 18446744073709551616

/-- Little-endian fixed 8-byte encoding of a `u64`, as `bincode::serialize`
(default configuration: fixed-width integers, little endian) produces for
the `id` field and for string lengths. -/
def encU64 (n : Nat) : List Nat :=
  [n % 256, n / 256 % 256, n / 65536 % 256, n / 16777216 % 256,
   n / 4294967296 % 256, n / 1099511627776 % 256,
   n / 281474976710656 % 256, n / 72057594037927936 % 256]

/-- bincode encoding of a byte string: `u64` length prefix, then the raw
bytes. -/
def encBytes (s : List Nat) : List Nat := encU64 s.length ++ s

/-- bincode encoding of an optional byte string: one tag byte (0 absent,
1 present), then the value. -/
def encOptBytes : Option (List Nat) → List Nat
  | none => [0]
  | some s => 1 :: encBytes s

/-- Payload produced by `bincode::serialize(&req)` (line 203): the fields of
`PamRequest` in declaration order. -/
def bincodeSerializeRequest (r : PamRequest) : List Nat :=
  encU64 r.id ++ encBytes r.user ++ encBytes r.pass ++ encBytes r.service ++
    encOptBytes r.remip

/-- Decoder for the 8-byte little-endian `u64` encoding; returns the value
and the remaining bytes. -/
def decU64 : List Nat → Option (Nat × List Nat)
  | b0 :: b1 :: b2 :: b3 :: b4 :: b5 :: b6 :: b7 :: rest =>
      some (b0 + 256 * b1 + 65536 * b2 + 16777216 * b3 + 4294967296 * b4 +
            1099511627776 * b5 + 281474976710656 * b6 +
            72057594037927936 * b7, rest)
  | _ => none

/-- Decoder for a length-prefixed byte string. -/
def decBytes (l : List Nat) : Option (List Nat × List Nat) :=
  match decU64 l with
  | none => none
  | some (n, rest) =>
      if n ≤ rest.length then some (rest.take n, rest.drop n) else none

/-- Decoder for an optional byte string. -/
def decOptBytes : List Nat → Option (Option (List Nat) × List Nat)
  | 0 :: rest => some (none, rest)
  | 1 :: rest => (decBytes rest).map (fun p => (some p.1, p.2))
  | _ => none

/-- Decoder matching `bincodeSerializeRequest`, as the worker-side
`bincode::deserialize::<PamRequest>` reads the payload; returns the decoded
structure and any trailing bytes. -/
def bincodeDeserializeRequest (l : List Nat) : Option (PamRequest × List Nat) :=
  (decU64 l).bind fun p1 =>
  (decBytes p1.2).bind fun p2 =>
  (decBytes p2.2).bind fun p3 =>
  (decBytes p3.2).bind fun p4 =>
  (decOptBytes p4.2).map fun p5 =>
  ({ id := p1.1, user := p2.1, pass := p3.1, service := p4.1,
     remip := p5.1 }, p5.2)

/-- Decoder for a 4-byte little-endian `u32` (bincode's enum variant tag and
the numeric error code). -/
def decU32 : List Nat → Option (Nat × List Nat)
  | b0 :: b1 :: b2 :: b3 :: rest =>
      some (b0 + 256 * b1 + 65536 * b2 + 16777216 * b3, rest)
  | _ => none

/-- Modelled from the spec: `bincode::deserialize::<PamResponse>` (line 246).
`PamResponse` lives in `crate::pamserver`, outside the given source tree; per
the spec it is the id followed by a `Result`, encoded as a `u32` variant tag
(0 success, 1 failure followed by the error code). -/
def bincodeDeserializeResponse (l : List Nat) : Option PamResponse :=
  (decU64 l).bind fun p1 =>
  (decU32 p1.2).bind fun p2 =>
  match p2.1 with
  | 0 => some { id := p1.1, result := .ok () }
  | 1 => (decU32 p2.2).map fun p3 => { id := p1.1, result := .error ⟨p3.1⟩ }
  | _ => none

/-- Two-byte big-endian length header built by the write loop
(lines 214-215): `l1 = ((len >> 8) & 0xff) as u8`, `l2 = (len & 0xff) as u8`. -/
def frameHeader (len : Nat) : List Nat := [len / 256 % 256, len % 256]

/-- Frame written for a payload: the two header bytes are placed in front of
the payload (lines 216-217). -/
def writeFrame (payload : List Nat) : List Nat :=
  frameHeader payload.length ++ payload

/-- Size computed by the read loop from the two header bytes (line 235):
`((buf[0] as usize) << 8) + (buf[1] as usize)`. -/
def readFrameSize (b0 b1 : Nat) : Nat := b0 * 256 + b1

/-- Read-loop framing (lines 229-243): take a 2-byte header, compute the
size, then take exactly that many payload bytes; `none` models the fatal
short read when the stream has too few bytes. -/
def parseFrame : List Nat → Option (List Nat × List Nat)
  | b0 :: b1 :: rest =>
      if readFrameSize b0 b1 ≤ rest.length then
        some (rest.take (readFrameSize b0 b1), rest.drop (readFrameSize b0 b1))
      else none
  | _ => none

/-- Bytes written on queue close (line 188): `let data = [0u8; 2]`. -/
def shutdownFrame : List Nat := [0, 0]

/-- Observable event of the write loop: inserting a reply slot in the
waiters map (line 199), writing the frame of a request (line 218), hitting
a `panic!` branch (lines 207 and 212), or writing the shutdown frame
(line 189).  Write events also record the assigned id for bookkeeping. -/
inductive WEvent where
  | insert (id : Nat) (slot : Nat)
  | write (id : Nat) (frame : List Nat)
  | abortEv
  | shutdown
  deriving DecidableEq

/-- State of the write loop `handle_request` (lines 180-225): the local id
counter (line 181), the shared `waiters` map embedded as an association
list, and the trace of events so far. -/
structure WState where
  nextId : Nat
  waiters : List (Nat × Nat)
  trace : List WEvent
  deriving DecidableEq

/-- HashMap insert on the association-list embedding: the new binding
shadows (replaces) any previous binding of the same key. -/
def insertW (k v : Nat) (l : List (Nat × Nat)) : List (Nat × Nat) :=
  (k, v) :: l.filter (fun p => p.1 != k)

/-- HashMap remove on the association-list embedding: returns the removed
value, if any, together with the remaining list. -/
def removeW (k : Nat) : List (Nat × Nat) → Option Nat × List (Nat × Nat)
  | [] => (none, [])
  | (k2, v) :: t =>
      if k2 = k then (some v, t)
      else
        let r := removeW k t
        (r.1, (k2, v) :: r.2)

/-- Keys of the association-list embedding of the waiters map. -/
def keysW (l : List (Nat × Nat)) : List Nat := l.map Prod.fst

/-- First-match lookup on the association-list embedding. -/
def lookupW (k : Nat) : List (Nat × Nat) → Option Nat
  | [] => none
  | (k2, v) :: t => if k2 = k then some v else lookupW k t

/-- Body of the write loop for one dequeued request (lines 194-223): assign
the next id (overwriting the placeholder), bump the wrapping `u64` counter,
insert the reply slot under the lock, serialize, `panic!` if the payload
exceeds 65533 bytes (before any byte of the frame is written), otherwise
write the complete frame.  The returned flag is false exactly on the abort
branch. -/
def stepReq (st : WState) (p : PamRequest1) : WState × Bool :=
  let rid := st.nextId
  let req2 := { p.req with id := rid }
  let waiters2 := insertW rid p.resp_chan st.waiters
  let data := bincodeSerializeRequest req2
  if 65533 < data.length then
    ({ nextId := (rid + 1) % U64MOD, waiters := waiters2,
       trace := st.trace ++ [WEvent.insert rid p.resp_chan, WEvent.abortEv] },
     false)
  else
    ({ nextId := (rid + 1) % U64MOD, waiters := waiters2,
       trace := st.trace ++
         [WEvent.insert rid p.resp_chan, WEvent.write rid (writeFrame data)] },
     true)

/-- Write loop over the sequence of requests arriving on the queue; stops
early when a step aborts.  The flag records whether the run aborted. -/
def runReqs : WState → List PamRequest1 → WState × Bool
  | st, [] => (st, false)
  | st, p :: rest =>
      match stepReq st p with
      | (st2, true) => runReqs st2 rest
      | (st2, false) => (st2, true)

/-- Initial write-loop state: `let mut id: u64 = 0` (line 181) and the empty
waiters map (line 166). -/
def initW : WState := { nextId := 0, waiters := [], trace := [] }

/-- Complete life of the write loop `handle_request` over the queue contents
`reqs` (the queue closing after the last element): process each request in
arrival order; if the queue drains without an abort, write the shutdown
frame and return (lines 186-191).  The channel itself is modelled as
non-failing; a failed socket write makes the loop return early without the
shutdown frame and is outside the claims treated here. -/
def handle_request (reqs : List PamRequest1) : WState :=
  match runReqs initW reqs with
  | (st, true) => st
  | (st, false) => { st with trace := st.trace ++ [WEvent.shutdown] }

/-- Ids carried by insert events of a trace, in order. -/
def insertedIds : List WEvent → List Nat
  | [] => []
  | WEvent.insert i _ :: t => i :: insertedIds t
  | _ :: t => insertedIds t

/-- Ids carried by request-frame write events of a trace, in order. -/
def writtenIds : List WEvent → List Nat
  | [] => []
  | WEvent.write i _ :: t => i :: writtenIds t
  | _ :: t => writtenIds t

/-- Trace property: scanning left to right with `seen` the ids inserted so
far, every request-frame write event carries an id inserted strictly
earlier. -/
def insertBeforeWrite : List Nat → List WEvent → Prop
  | _, [] => True
  | seen, WEvent.insert i _ :: t => insertBeforeWrite (i :: seen) t
  | seen, WEvent.write i _ :: t => i ∈ seen ∧ insertBeforeWrite seen t
  | seen, _ :: t => insertBeforeWrite seen t

/-- Body of the read loop after a frame has been decoded (lines 254-261):
remove the responder id from the waiters map under the lock; if a slot was
there, fulfill it with the carried result, otherwise do nothing.  The loop
then continues either way. -/
def handleResponseStep (w : List (Nat × Nat)) (resp : PamResponse) :
    List (Nat × Nat) × Option (Nat × Except PamError Unit) :=
  let r := removeW resp.id w
  match r.1 with
  | some slot => (r.2, some (slot, resp.result))
  | none => (r.2, none)

/-- One read-loop iteration on a received frame payload (lines 245-261):
`none` models the `panic!` on a payload that fails to decode; otherwise the
decoded response is dispatched against the waiters map. -/
def readStep (w : List (Nat × Nat)) (data : List Nat) :
    Option (List (Nat × Nat) × Option (Nat × Except PamError Unit)) :=
  (bincodeDeserializeResponse data).map (fun resp => handleResponseStep w resp)

/-- Outcome of submitting to the request queue in `auth` (line 134): the
mpsc send fails exactly when the receiving end is gone. -/
inductive SendOutcome where
  | sent
  | receiverGone
  deriving DecidableEq

/-- Outcome of awaiting the oneshot reply slot in `auth` (lines 137-140):
either the slot was fulfilled with the worker's result, or it was dropped
before fulfillment. -/
inductive RecvOutcome where
  | fulfilled (r : Except PamError Unit)
  | dropped
  deriving DecidableEq

/-- Result of `PamAuth::auth` (lines 117-141) as a function of the
submission outcome and, when the submission succeeded, the reply-slot
outcome: a failed send maps to `ERR_SEND_TO_SERVER` (line 134), a dropped
slot to `ERR_RECV_FROM_SERVER` (line 139), and a fulfilled slot passes the
carried result through unchanged (line 138). -/
def authResult (send : SendOutcome) (recv : RecvOutcome) :
    Except PamError Unit :=
  match send with
  | .receiverGone => .error ⟨ERR_SEND_TO_SERVER⟩
  | .sent =>
      match recv with
      | .fulfilled r => r
      | .dropped => .error ⟨ERR_RECV_FROM_SERVER⟩

/-- State of the lazy-start guard `PamAuthTaskOnce` (lines 47-50): the
`Once` flag, the take-able stored task (an abstract token), and the tokens
spawned onto the runtime so far. -/
structure OnceState where
  completed : Bool
  task : Option Nat
  spawned : List Nat
  deriving DecidableEq

/-- Effect on the guard of one `auth` call (lines 105-115):
`Once::call_once` runs the closure iff no earlier call completed it; the
closure takes the stored task and spawns it.  `std::sync::Once` serializes
racing first callers and blocks them until the winning closure finishes, so
calls are faithfully modelled as atomic steps in some order. -/
def authOnceStep (st : OnceState) : OnceState :=
  if st.completed then st
  else { completed := true, task := none,
         spawned := st.spawned ++ st.task.toList }

/-- Guard state created by `PamAuth::new` (lines 83-86): fresh `Once`, the
pump task stored, nothing spawned. -/
def initOnce (t : Nat) : OnceState :=
  { completed := false, task := some t, spawned := [] }

/-- Modelled from the spec: the request queue is created as
`mpsc::channel::<PamRequest1>(0)` (line 162); the channel implementation is
outside the given source tree, so its rendezvous behavior is modelled from
the spec's words (a zero-buffer handoff queue: a send completes only once
the receiver loop is ready to take the item).  State: the senders currently
blocked inside `send` with their offered item, and whether the write loop
is parked at `req_rx.next()` ready to accept. -/
structure ChanState where
  offers : List (Nat × PamRequest1)
  recvReady : Bool

/-- Initial channel state: no sender blocked, receiver not yet polling. -/
def chanInit : ChanState := { offers := [], recvReady := false }

/-- Modelled from the spec: transition relation of the rendezvous queue.  A
sender may start a send only when it has none outstanding (an `auth` caller
awaits completion of its send before the sender clone is reused); the write
loop becoming ready to accept is a transition; a handoff completes a send
only when the write loop is ready, consuming its readiness. -/
inductive ChanStep : ChanState → ChanState → Prop where
  | sendStart (st : ChanState) (s : Nat) (x : PamRequest1) :
      (∀ y, (s, y) ∉ st.offers) →
      ChanStep st { st with offers := (s, x) :: st.offers }
  | recvArrive (st : ChanState) :
      ChanStep st { st with recvReady := true }
  | handoff (st : ChanState) (s : Nat) (x : PamRequest1) :
      st.recvReady = true → (s, x) ∈ st.offers →
      ChanStep st { offers := st.offers.filter (fun p => p.1 != s),
                    recvReady := false }

/-- Channel states reachable from the initial state. -/
def ChanReachable : ChanState → Prop :=
  Relation.ReflTransGen ChanStep chanInit

/-- Sample queued request used to evaluate the model on concrete inputs. -/
def sampleReq1 : PamRequest1 :=
  { req := { id := 42, user := [1], pass := [2], service := [3], remip := none },
    resp_chan := 8 }

/-- Second sample queued request used to evaluate the model on concrete
inputs. -/
def sampleReq2 : PamRequest1 :=
  { req := { id := 7, user := [4], pass := [5], service := [6],
             remip := some [7] },
    resp_chan := 9 }


/-! Codec round-trip lemmas. -/

theorem decU64_encU64 (n : Nat) (rest : List Nat) (h : n < U64MOD) :
    decU64 (encU64 n ++ rest) = some (n, rest) := by
  simp only [encU64, decU64, List.cons_append, List.nil_append, U64MOD] at *
  congr 2
  omega

theorem decBytes_encBytes (s rest : List Nat) (h : s.length < U64MOD) :
    decBytes (encBytes s ++ rest) = some (s, rest) := by
  simp only [encBytes, List.append_assoc, decBytes,
    decU64_encU64 s.length (s ++ rest) h]
  rw [if_pos (by simp)]
  simp [List.take_left, List.drop_left]

/-! Helper lemmas about the codec. -/

theorem length_encU64 (n : Nat) : (encU64 n).length = 8 := rfl

theorem length_serialize_set_id (r : PamRequest) (i : Nat) :
    (bincodeSerializeRequest { r with id := i }).length =
      (bincodeSerializeRequest r).length := by
  simp [bincodeSerializeRequest, List.length_append, length_encU64]

/-! Helper lemmas about traces. -/

theorem insertedIds_append (t1 t2 : List WEvent) :
    insertedIds (t1 ++ t2) = insertedIds t1 ++ insertedIds t2 := by
  induction t1 with
  | nil => rfl
  | cons e t ih => cases e <;> simp [insertedIds, ih]

theorem writtenIds_append (t1 t2 : List WEvent) :
    writtenIds (t1 ++ t2) = writtenIds t1 ++ writtenIds t2 := by
  induction t1 with
  | nil => rfl
  | cons e t ih => cases e <;> simp [writtenIds, ih]

/-! Helper lemmas about the waiters map embedding. -/

theorem keysW_insertW (k v : Nat) (l : List (Nat × Nat)) (h : k ∉ keysW l) :
    keysW (insertW k v l) = k :: keysW l := by
  have hf : l.filter (fun p => p.1 != k) = l := by
    rw [List.filter_eq_self]
    intro p hp
    simp only [bne_iff_ne, ne_eq, decide_eq_true_eq]
    exact fun hc => h (hc ▸ List.mem_map_of_mem Prod.fst hp)
  simp [insertW, keysW, hf]

theorem mem_keysW_insertW (j k v : Nat) (l : List (Nat × Nat))
    (h : j ∈ keysW l) : j ∈ keysW (insertW k v l) := by
  rcases eq_or_ne j k with rfl | hjk
  · simp [insertW, keysW]
  · simp only [keysW, List.mem_map] at h ⊢
    obtain ⟨p, hp, hpj⟩ := h
    refine ⟨p, List.mem_cons_of_mem _ (List.mem_filter.mpr ⟨hp, ?_⟩), hpj⟩
    simp only [bne_iff_ne, ne_eq, decide_eq_true_eq]
    rw [hpj]; exact hjk

/-! Characterization of one write-loop step, component by component. -/

theorem stepReq_nextId (st : WState) (p : PamRequest1) :
    (stepReq st p).1.nextId = (st.nextId + 1) % U64MOD := by
  simp only [stepReq]; split <;> rfl

theorem stepReq_waiters (st : WState) (p : PamRequest1) :
    (stepReq st p).1.waiters = insertW st.nextId p.resp_chan st.waiters := by
  simp only [stepReq]; split <;> rfl

theorem stepReq_trace (st : WState) (p : PamRequest1) :
    ((stepReq st p).2 = false ∧
      65533 < (bincodeSerializeRequest { p.req with id := st.nextId }).length ∧
      (stepReq st p).1.trace = st.trace ++
        [WEvent.insert st.nextId p.resp_chan, WEvent.abortEv]) ∨
    ((stepReq st p).2 = true ∧
      (bincodeSerializeRequest { p.req with id := st.nextId }).length ≤ 65533 ∧
      (stepReq st p).1.trace = st.trace ++
        [WEvent.insert st.nextId p.resp_chan,
         WEvent.write st.nextId
           (writeFrame (bincodeSerializeRequest { p.req with id := st.nextId }))]) := by
  by_cases h : 65533 < (bincodeSerializeRequest { p.req with id := st.nextId }).length
  · left; refine ⟨?_, h, ?_⟩ <;> simp only [stepReq, if_pos h]
  · right
    refine ⟨?_, Nat.le_of_not_lt h, ?_⟩ <;> simp only [stepReq, if_neg h]

theorem runReqs_cons (st : WState) (p : PamRequest1) (rest : List PamRequest1) :
    runReqs st (p :: rest) =
      if (stepReq st p).2 then runReqs (stepReq st p).1 rest
      else ((stepReq st p).1, true) := by
  rcases h : stepReq st p with ⟨st2, b⟩
  cases b <;> simp [runReqs, h]

/-! Master invariant of the write-loop run: inserted ids so far form an
initial segment of the naturals, and the waiters keys are bounded and
duplicate-free. -/

theorem runReqs_inv (rest : List PamRequest1) (st : WState) (n : Nat)
    (h1 : insertedIds st.trace = List.range n)
    (h2 : st.nextId = n % U64MOD)
    (h3 : ∀ k ∈ keysW st.waiters, k < n)
    (h4 : (keysW st.waiters).Nodup)
    (h5 : n + rest.length ≤ U64MOD) :
    ∃ m, n ≤ m ∧ m ≤ n + rest.length ∧
      insertedIds (runReqs st rest).1.trace = List.range m ∧
      (∀ k ∈ keysW (runReqs st rest).1.waiters, k < m) ∧
      (keysW (runReqs st rest).1.waiters).Nodup := by
  induction rest generalizing st n with
  | nil => exact ⟨n, Nat.le_refl n, by simp, h1, h3, h4⟩
  | cons p rest ih =>
      have hn : n < U64MOD := by
        simp only [List.length_cons] at h5; omega
      have hid : st.nextId = n := by rw [h2, Nat.mod_eq_of_lt hn]
      have hfresh : n ∉ keysW st.waiters := fun hmem => Nat.lt_irrefl n (h3 n hmem)
      have hkeys : keysW (stepReq st p).1.waiters = n :: keysW st.waiters := by
        rw [stepReq_waiters, hid]
        exact keysW_insertW n p.resp_chan st.waiters hfresh
      have hbound : ∀ k ∈ keysW (stepReq st p).1.waiters, k < n + 1 := by
        rw [hkeys]
        intro k hk
        rcases List.mem_cons.mp hk with h | h
        · omega
        · exact Nat.lt_succ_of_lt (h3 k h)
      have hnodup : (keysW (stepReq st p).1.waiters).Nodup := by
        rw [hkeys]; exact List.nodup_cons.mpr ⟨hfresh, h4⟩
      have hnext : (stepReq st p).1.nextId = (n + 1) % U64MOD := by
        rw [stepReq_nextId, hid]
      rcases stepReq_trace st p with ⟨hflag, _, htr⟩ | ⟨hflag, _, htr⟩
      · -- abort branch: the run stops after this request
        rw [runReqs_cons, hflag]
        simp only [Bool.false_eq_true, if_false]
        refine ⟨n + 1, Nat.le_succ n, by simp only [List.length_cons]; omega,
          ?_, hbound, hnodup⟩
        rw [htr, insertedIds_append, h1, hid, List.range_succ]
        rfl
      · -- success branch: recurse on the remaining queue
        rw [runReqs_cons, hflag, if_pos rfl]
        have hins : insertedIds (stepReq st p).1.trace = List.range (n + 1) := by
          rw [htr, insertedIds_append, h1, hid, List.range_succ]
          rfl
        obtain ⟨m, hm1, hm2, hm3, hm4, hm5⟩ :=
          ih (stepReq st p).1 (n + 1) hins hnext hbound hnodup
            (by simp only [List.length_cons] at h5; omega)
        exact ⟨m, Nat.le_trans (Nat.le_succ n) hm1,
          by simp only [List.length_cons]; omega, hm3, hm4, hm5⟩

/-! Bridges between `handle_request` and the underlying run. -/

theorem handle_request_eq (reqs : List PamRequest1) :
    handle_request reqs =
      if (runReqs initW reqs).2 then (runReqs initW reqs).1
      else { (runReqs initW reqs).1 with
             trace := (runReqs initW reqs).1.trace ++ [WEvent.shutdown] } := by
  rcases h : runReqs initW reqs with ⟨st, b⟩
  cases b <;> simp [handle_request, h]

theorem handle_request_waiters (reqs : List PamRequest1) :
    (handle_request reqs).waiters = (runReqs initW reqs).1.waiters := by
  rw [handle_request_eq]; split <;> rfl

theorem insertedIds_handle_request (reqs : List PamRequest1) :
    insertedIds (handle_request reqs).trace =
      insertedIds (runReqs initW reqs).1.trace := by
  rw [handle_request_eq]; split
  · rfl
  · show insertedIds ((runReqs initW reqs).1.trace ++ [WEvent.shutdown]) = _
    rw [insertedIds_append]; simp [insertedIds]

theorem writtenIds_handle_request (reqs : List PamRequest1) :
    writtenIds (handle_request reqs).trace =
      writtenIds (runReqs initW reqs).1.trace := by
  rw [handle_request_eq]; split
  · rfl
  · show writtenIds ((runReqs initW reqs).1.trace ++ [WEvent.shutdown]) = _
    rw [writtenIds_append]; simp [writtenIds]

/-! The run does not depend on the caller-side placeholder id. -/

theorem stepReq_set_id (st : WState) (p : PamRequest1) (z : Nat) :
    stepReq st { p with req := { p.req with id := z } } = stepReq st p := rfl

theorem runReqs_set_id (rest : List PamRequest1) (st : WState) (z : Nat) :
    runReqs st (rest.map (fun p => { p with req := { p.req with id := z } })) =
      runReqs st rest := by
  induction rest generalizing st with
  | nil => rfl
  | cons p rest ih =>
      rw [List.map_cons, runReqs_cons, runReqs_cons, stepReq_set_id, ih]

/-! A run over requests whose payloads all fit never aborts and never emits
a shutdown event of its own. -/

theorem runReqs_noabort (rest : List PamRequest1) (st : WState)
    (h : ∀ p ∈ rest, (bincodeSerializeRequest p.req).length ≤ 65533) :
    (runReqs st rest).2 = false ∧
    (runReqs st rest).1.trace.count WEvent.shutdown =
      st.trace.count WEvent.shutdown := by
  induction rest generalizing st with
  | nil => exact ⟨rfl, rfl⟩
  | cons p rest ih =>
      have hp : (bincodeSerializeRequest { p.req with id := st.nextId }).length ≤ 65533 := by
        rw [length_serialize_set_id]; exact h p (List.mem_cons_self p rest)
      rcases stepReq_trace st p with ⟨hflag, hlen, htr⟩ | ⟨hflag, hlen, htr⟩
      · omega
      · rw [runReqs_cons, hflag, if_pos rfl]
        obtain ⟨ha, hc⟩ := ih (stepReq st p).1 (fun q hq => h q (List.mem_cons_of_mem p hq))
        refine ⟨ha, ?_⟩
        rw [hc, htr, List.count_append]
        rfl

/-! Lemmas about the insert-before-write trace property. -/

theorem ibw_congr (t : List WEvent) : ∀ s1 s2 : List Nat,
    (∀ x, x ∈ s1 ↔ x ∈ s2) →
    (insertBeforeWrite s1 t ↔ insertBeforeWrite s2 t) := by
  induction t with
  | nil => intro s1 s2 _; exact Iff.rfl
  | cons e t ih =>
      intro s1 s2 h
      cases e with
      | insert i slot =>
          show insertBeforeWrite (i :: s1) t ↔ insertBeforeWrite (i :: s2) t
          exact ih (i :: s1) (i :: s2) (by intro x; simp [h x])
      | write i f =>
          show (i ∈ s1 ∧ insertBeforeWrite s1 t) ↔ (i ∈ s2 ∧ insertBeforeWrite s2 t)
          exact and_congr (h i) (ih s1 s2 h)
      | abortEv => exact ih s1 s2 h
      | shutdown => exact ih s1 s2 h

theorem ibw_append (t1 t2 : List WEvent) : ∀ s : List Nat,
    insertBeforeWrite s (t1 ++ t2) ↔
      (insertBeforeWrite s t1 ∧ insertBeforeWrite (insertedIds t1 ++ s) t2) := by
  induction t1 with
  | nil =>
      intro s
      show insertBeforeWrite s t2 ↔ (True ∧ insertBeforeWrite s t2)
      simp
  | cons e t ih =>
      intro s
      cases e with
      | insert i slot =>
          show insertBeforeWrite (i :: s) (t ++ t2) ↔
            (insertBeforeWrite (i :: s) t ∧
              insertBeforeWrite (insertedIds (WEvent.insert i slot :: t) ++ s) t2)
          rw [ih (i :: s)]
          refine and_congr Iff.rfl (ibw_congr t2 _ _ ?_)
          intro x
          show x ∈ insertedIds t ++ i :: s ↔ x ∈ (i :: insertedIds t) ++ s
          simp [List.mem_append]
          tauto
      | write i f =>
          show (i ∈ s ∧ insertBeforeWrite s (t ++ t2)) ↔
            ((i ∈ s ∧ insertBeforeWrite s t) ∧
              insertBeforeWrite (insertedIds (WEvent.write i f :: t) ++ s) t2)
          rw [ih s]
          show _ ↔ (_ ∧ insertBeforeWrite (insertedIds t ++ s) t2)
          tauto
      | abortEv =>
          show insertBeforeWrite s (t ++ t2) ↔
            (insertBeforeWrite s t ∧
              insertBeforeWrite (insertedIds (WEvent.abortEv :: t) ++ s) t2)
          exact ih s
      | shutdown =>
          show insertBeforeWrite s (t ++ t2) ↔
            (insertBeforeWrite s t ∧
              insertBeforeWrite (insertedIds (WEvent.shutdown :: t) ++ s) t2)
          exact ih s

theorem ibw_block_abort (seen : List Nat) (i c : Nat) :
    insertBeforeWrite seen [WEvent.insert i c, WEvent.abortEv] :=
  trivial

theorem ibw_block_write (seen : List Nat) (i c : Nat) (f : List Nat) :
    insertBeforeWrite seen [WEvent.insert i c, WEvent.write i f] :=
  ⟨List.mem_cons_self i seen, trivial⟩

theorem runReqs_ibw (rest : List PamRequest1) (st : WState)
    (h1 : insertBeforeWrite [] st.trace)
    (h2 : ∀ i ∈ writtenIds st.trace, i ∈ keysW st.waiters) :
    insertBeforeWrite [] (runReqs st rest).1.trace ∧
    (∀ i ∈ writtenIds (runReqs st rest).1.trace,
      i ∈ keysW (runReqs st rest).1.waiters) := by
  induction rest generalizing st with
  | nil => exact ⟨h1, h2⟩
  | cons p rest ih =>
      rcases stepReq_trace st p with ⟨hflag, _, htr⟩ | ⟨hflag, _, htr⟩
      · rw [runReqs_cons, hflag]
        simp only [Bool.false_eq_true, if_false]
        constructor
        · rw [htr, ibw_append]
          exact ⟨h1, ibw_block_abort _ _ _⟩
        · rw [htr, writtenIds_append, stepReq_waiters]
          intro i hi
          rcases List.mem_append.mp hi with hi | hi
          · exact mem_keysW_insertW i st.nextId p.resp_chan st.waiters (h2 i hi)
          · cases hi
      · rw [runReqs_cons, hflag, if_pos rfl]
        apply ih
        · rw [htr, ibw_append]
          exact ⟨h1, ibw_block_write _ _ _ _⟩
        · rw [htr, writtenIds_append, stepReq_waiters]
          intro i hi
          rcases List.mem_append.mp hi with hi | hi
          · exact mem_keysW_insertW i st.nextId p.resp_chan st.waiters (h2 i hi)
          · have hi2 : i ∈ [st.nextId] := by simpa [writtenIds] using hi
            rw [List.mem_singleton.mp hi2]
            simp [insertW, keysW]

/-! Reader-side map lemmas: first-match removal coincides with lookup plus
key-filtering when the keys are duplicate-free. -/

theorem removeW_eq (k : Nat) (l : List (Nat × Nat)) (h : (keysW l).Nodup) :
    removeW k l = (lookupW k l,
      if (lookupW k l).isSome then l.filter (fun p => p.1 != k) else l) := by
  induction l with
  | nil => simp [removeW, lookupW]
  | cons q t ih =>
      have hnd : (q.1 :: keysW t).Nodup := by simpa [keysW] using h
      obtain ⟨hq, ht⟩ := List.nodup_cons.mp hnd
      rcases q with ⟨k2, v⟩
      by_cases hk : k2 = k
      · subst hk
        have hft : t.filter (fun p => p.1 != k2) = t := by
          rw [List.filter_eq_self]
          intro p hp
          simp only [bne_iff_ne, ne_eq, decide_eq_true_eq]
          intro hc
          apply hq
          show k2 ∈ keysW t
          rw [← hc]
          exact List.mem_map_of_mem Prod.fst hp
        simp [removeW, lookupW, List.filter, hft]
      · simp only [removeW, lookupW, if_neg hk]
        rw [ih ht]
        rcases hh : lookupW k t with _ | s
        · simp
        · simp only [Option.isSome_some, if_true]
          have hk2 : ((k2, v).1 != k) = true := by
            simp only [bne_iff_ne, ne_eq, decide_eq_true_eq]
            exact hk
          simp [List.filter, hk2]

/-! Frame codec lemmas. -/

theorem parseFrame_writeFrame (payload rest : List Nat)
    (h : payload.length ≤ 65533) :
    parseFrame (writeFrame payload ++ rest) = some (payload, rest) := by
  have hsz : readFrameSize (payload.length / 256 % 256) (payload.length % 256) =
      payload.length := by
    simp only [readFrameSize]; omega
  simp only [writeFrame, frameHeader, List.cons_append, List.nil_append,
    List.append_assoc, parseFrame, hsz]
  rw [if_pos (by simp)]
  simp [List.take_left, List.drop_left]

/-! Once-guard lemmas. -/

theorem authOnceStep_init (t : Nat) :
    authOnceStep (initOnce t) =
      { completed := true, task := none, spawned := [t] } := by
  simp [authOnceStep, initOnce, Option.toList]

theorem authOnceStep_iterate (t m : Nat) :
    authOnceStep^[m + 1] (initOnce t) =
      { completed := true, task := none, spawned := [t] } := by
  rw [Function.iterate_succ_apply, authOnceStep_init]
  apply Function.iterate_fixed
  simp [authOnceStep]

/-! Rendezvous-channel invariant. -/

theorem chanReachable_nodup (st : ChanState) (h : ChanReachable st) :
    (st.offers.map Prod.fst).Nodup := by
  induction h with
  | refl => simp [chanInit]
  | tail hr hstep ih =>
      cases hstep with
      | sendStart s x hfree =>
          refine List.nodup_cons.mpr ⟨?_, ih⟩
          intro hmem
          obtain ⟨q, hq, hq1⟩ := List.mem_map.mp hmem
          exact hfree q.2 (by rw [show (s, q.2) = q from Prod.ext hq1.symm rfl]; exact hq)
      | recvArrive => exact ih
      | handoff s x hr2 hmem =>
          exact ((List.filter_sublist _).map Prod.fst).nodup ih

/-- C3: every frame written by the write loop is a 2-byte big-endian length
prefix followed by exactly that many payload bytes, and the read loop parses
the same format: it computes the length as (first byte << 8) + second byte
and then takes exactly that many payload bytes; for every payload of length
at most 65533, decoding the length prefix produced by the writer yields the
payload length. -/
theorem frame_format_roundtrip (payload rest : List Nat)
    (h : payload.length ≤ 65533) :
    writeFrame payload =
      [payload.length / 256 % 256, payload.length % 256] ++ payload ∧
    (writeFrame payload).length = 2 + payload.length ∧
    readFrameSize (payload.length / 256 % 256) (payload.length % 256) =
      payload.length ∧
    parseFrame (writeFrame payload ++ rest) = some (payload, rest) := by
  refine ⟨rfl, ?_, ?_, parseFrame_writeFrame payload rest h⟩
  · rw [writeFrame, List.length_append]; rfl
  · simp only [readFrameSize]; omega

/-- Witness for the frame round trip at a concrete payload. -/
theorem frame_format_roundtrip_witness :
    ([5, 6, 7] : List Nat).length ≤ 65533 ∧
    (writeFrame [5, 6, 7] =
      [([5, 6, 7] : List Nat).length / 256 % 256,
       ([5, 6, 7] : List Nat).length % 256] ++ [5, 6, 7] ∧
    (writeFrame [5, 6, 7]).length = 2 + ([5, 6, 7] : List Nat).length ∧
    readFrameSize (([5, 6, 7] : List Nat).length / 256 % 256)
      (([5, 6, 7] : List Nat).length % 256) = ([5, 6, 7] : List Nat).length ∧
    parseFrame (writeFrame [5, 6, 7] ++ [9]) = some ([5, 6, 7], [9])) :=
  ⟨by decide, frame_format_roundtrip [5, 6, 7] [9] (by decide)⟩

/-- C4: encoding a request with the wire codec's payload encoding and then
decoding the resulting bytes yields a structure identical to the original,
for arbitrary field contents with `remote_ip` present or absent (the length
bounds are the `u64` ranges that hold for every Rust value by
construction). -/
theorem request_codec_roundtrip (r : PamRequest) (hid : r.id < U64MOD)
    (hu : r.user.length < U64MOD) (hp : r.pass.length < U64MOD)
    (hs : r.service.length < U64MOD)
    (hr : match r.remip with | none => True | some s => s.length < U64MOD) :
    bincodeDeserializeRequest (bincodeSerializeRequest r) = some (r, []) := by
  simp only [bincodeSerializeRequest, List.append_assoc]
  rw [bincodeDeserializeRequest, decU64_encU64 _ _ hid]
  simp only [Option.some_bind']
  rw [decBytes_encBytes _ _ hu]
  simp only [Option.some_bind']
  rw [decBytes_encBytes _ _ hp]
  simp only [Option.some_bind']
  rw [show encBytes r.service ++ encOptBytes r.remip =
        encBytes r.service ++ (encOptBytes r.remip ++ []) by simp]
  rw [decBytes_encBytes _ _ hs]
  simp only [Option.some_bind']
  match hrm : r.remip with
  | none =>
      simp only [encOptBytes, List.cons_append, List.nil_append]
      rw [show decOptBytes [0] = some (none, []) from rfl]
      simp only [Option.map_some']
      rw [← hrm]
  | some s =>
      rw [hrm] at hr
      simp only [encOptBytes, List.cons_append]
      rw [show decOptBytes (1 :: (encBytes s ++ [])) =
            (decBytes (encBytes s ++ [])).map (fun p => (some p.1, p.2)) from rfl]
      rw [decBytes_encBytes _ _ hr]
      simp only [Option.map_some']
      rw [← hrm]

/-- Witness for the request codec round trip at a concrete request with
`remote_ip` present. -/
theorem request_codec_roundtrip_witness :
    (3 : Nat) < U64MOD ∧
    bincodeDeserializeRequest (bincodeSerializeRequest
      { id := 3, user := [97], pass := [98, 99], service := [100],
        remip := some [49, 48] }) =
      some ({ id := 3, user := [97], pass := [98, 99], service := [100],
              remip := some [49, 48] }, []) :=
  ⟨by decide,
   request_codec_roundtrip
     { id := 3, user := [97], pass := [98, 99], service := [100],
       remip := some [49, 48] }
     (by decide) (by decide) (by decide) (by decide) (by decide)⟩

/-- C5: protocol-integrity violations abort rather than surface as values:
the write-loop step takes its abort branch exactly when the serialized
payload exceeds 65533 bytes, and in that case the trace gains no write
event (no truncated write); otherwise the complete frame is written.  The
read-loop step aborts exactly when the received payload fails to decode. -/
theorem protocol_violation_aborts (st : WState) (p : PamRequest1)
    (w : List (Nat × Nat)) (data : List Nat) :
    ((stepReq st p).2 = false ↔
      65533 < (bincodeSerializeRequest { p.req with id := st.nextId }).length) ∧
    ((stepReq st p).2 = false →
      (stepReq st p).1.trace = st.trace ++
        [WEvent.insert st.nextId p.resp_chan, WEvent.abortEv]) ∧
    ((stepReq st p).2 = true →
      (stepReq st p).1.trace = st.trace ++
        [WEvent.insert st.nextId p.resp_chan,
         WEvent.write st.nextId
           (writeFrame (bincodeSerializeRequest { p.req with id := st.nextId }))]) ∧
    (readStep w data = none ↔ bincodeDeserializeResponse data = none) := by
  have hread : readStep w data = none ↔ bincodeDeserializeResponse data = none := by
    rw [readStep]
    rcases hh : bincodeDeserializeResponse data with _ | r <;> simp [hh]
  rcases stepReq_trace st p with ⟨hflag, hlen, htr⟩ | ⟨hflag, hlen, htr⟩
  · refine ⟨?_, fun _ => htr, ?_, hread⟩
    · rw [hflag]; exact iff_of_true rfl hlen
    · intro hc; rw [hflag] at hc; cases hc
  · refine ⟨?_, ?_, fun _ => htr, hread⟩
    · rw [hflag]; exact iff_of_false (by simp) (Nat.not_lt.mpr hlen)
    · intro hc; rw [hflag] at hc; cases hc

/-- C7: dispatching a decoded response against the correlation table: when
the id has no entry the table is left unchanged and no slot is fulfilled
(the response is silently discarded, the step still succeeds); when the id
matches, exactly that entry is removed and its slot is fulfilled with the
carried result. -/
theorem response_dispatch_characterization (w : List (Nat × Nat))
    (resp : PamResponse) (data : List Nat)
    (hnd : (keysW w).Nodup)
    (hdec : bincodeDeserializeResponse data = some resp) :
    readStep w data = some
      ((if (lookupW resp.id w).isSome
          then w.filter (fun p => p.1 != resp.id) else w),
       (lookupW resp.id w).map (fun s => (s, resp.result))) := by
  rw [readStep, hdec, Option.map_some']
  simp only [handleResponseStep, removeW_eq resp.id w hnd]
  rcases hh : lookupW resp.id w with _ | s <;> simp [hh]

/-- Witness for response dispatch at a concrete table and response. -/
theorem response_dispatch_characterization_witness :
    (keysW [(0, 7)]).Nodup ∧
    bincodeDeserializeResponse [0, 0, 0, 0, 0, 0, 0, 0, 0, 0, 0, 0] =
      some { id := 0, result := Except.ok () } ∧
    readStep [(0, 7)] [0, 0, 0, 0, 0, 0, 0, 0, 0, 0, 0, 0] = some
      ((if (lookupW (0 : Nat) [(0, 7)]).isSome
          then List.filter (fun p => p.1 != 0) [(0, 7)] else [(0, 7)]),
       (lookupW (0 : Nat) [(0, 7)]).map (fun s => (s, Except.ok ()))) :=
  ⟨by decide, by decide,
   response_dispatch_characterization [(0, 7)] { id := 0, result := Except.ok () }
     [0, 0, 0, 0, 0, 0, 0, 0, 0, 0, 0, 0] (by decide) (by decide)⟩

/-- C2: the write loop assigns ids from a local counter starting at 0 — the
inserted ids of any run form the initial segment 0, 1, 2, ... — overwriting
the caller's placeholder id (the run is invariant under rewriting all
placeholder ids); consequently the ids simultaneously present in the
correlation table are pairwise distinct at every point of the run (every
queue prefix), absent counter wraparound. -/
theorem write_loop_ids_sequential (reqs : List PamRequest1)
    (hlen : reqs.length ≤ U64MOD) :
    insertedIds (handle_request reqs).trace =
      List.range (insertedIds (handle_request reqs).trace).length ∧
    (∀ m, (keysW (handle_request (reqs.take m)).waiters).Nodup) ∧
    (∀ z, handle_request
        (reqs.map (fun p => { p with req := { p.req with id := z } })) =
      handle_request reqs) := by
  have h3 : ∀ k ∈ keysW initW.waiters, k < 0 := by simp [initW, keysW]
  have h4 : (keysW initW.waiters).Nodup := by simp [initW, keysW]
  obtain ⟨m, _, _, hm3, _, _⟩ :=
    runReqs_inv reqs initW 0 rfl (by simp [initW]) h3 h4 (by simpa using hlen)
  refine ⟨?_, ?_, ?_⟩
  · rw [insertedIds_handle_request, hm3, List.length_range]
  · intro m2
    obtain ⟨m3, _, _, _, _, hnd⟩ :=
      runReqs_inv (reqs.take m2) initW 0 rfl (by simp [initW]) h3 h4
        (by simp only [Nat.zero_add, List.length_take]; omega)
    rw [handle_request_waiters]
    exact hnd
  · intro z
    rw [handle_request_eq, handle_request_eq, runReqs_set_id]

/-- Witness for sequential id assignment at a concrete two-request queue. -/
theorem write_loop_ids_sequential_witness :
    ([sampleReq1, sampleReq2] : List PamRequest1).length ≤ U64MOD ∧
    (insertedIds (handle_request [sampleReq1, sampleReq2]).trace =
      List.range
        (insertedIds (handle_request [sampleReq1, sampleReq2]).trace).length ∧
    (∀ m, (keysW (handle_request
        ([sampleReq1, sampleReq2].take m)).waiters).Nodup) ∧
    (∀ z, handle_request
        ([sampleReq1, sampleReq2].map
          (fun p => { p with req := { p.req with id := z } })) =
      handle_request [sampleReq1, sampleReq2])) :=
  ⟨by decide, write_loop_ids_sequential [sampleReq1, sampleReq2] (by decide)⟩

/-- C6: when the request queue closes (and no request aborted the loop), the
write loop emits exactly one shutdown event, as the very last event of its
trace, and the shutdown frame is the zero-length frame: a 2-byte length
field equal to 0 with no payload. -/
theorem queue_close_single_shutdown (reqs : List PamRequest1)
    (h : ∀ p ∈ reqs, (bincodeSerializeRequest p.req).length ≤ 65533) :
    (handle_request reqs).trace.count WEvent.shutdown = 1 ∧
    (handle_request reqs).trace.getLast? = some WEvent.shutdown ∧
    shutdownFrame = frameHeader 0 ++ [] := by
  obtain ⟨ha, hc⟩ := runReqs_noabort reqs initW h
  rw [handle_request_eq, ha]
  simp only [Bool.false_eq_true, if_false]
  refine ⟨?_, ?_, rfl⟩
  · show ((runReqs initW reqs).1.trace ++ [WEvent.shutdown]).count WEvent.shutdown = 1
    rw [List.count_append, hc]
    rfl
  · exact List.getLast?_concat _

/-- Witness for the shutdown behavior at a concrete one-request queue. -/
theorem queue_close_single_shutdown_witness :
    (∀ p ∈ ([sampleReq1] : List PamRequest1),
      (bincodeSerializeRequest p.req).length ≤ 65533) ∧
    ((handle_request [sampleReq1]).trace.count WEvent.shutdown = 1 ∧
    (handle_request [sampleReq1]).trace.getLast? = some WEvent.shutdown ∧
    shutdownFrame = frameHeader 0 ++ []) :=
  ⟨by decide, queue_close_single_shutdown [sampleReq1] (by decide)⟩

/-- C9: in every write-loop trace, each request frame's id was inserted into
the correlation table strictly before the frame's write event; moreover
every written id is present among the waiters keys at the end of the run
(the write loop itself removes nothing), so a response answering a
previously received request finds its entry unless it was already
consumed. -/
theorem insert_precedes_write (reqs : List PamRequest1) :
    insertBeforeWrite [] (handle_request reqs).trace ∧
    (∀ i ∈ writtenIds (handle_request reqs).trace,
      i ∈ keysW (handle_request reqs).waiters) := by
  obtain ⟨h1, h2⟩ :=
    runReqs_ibw reqs initW trivial (by simp [initW, writtenIds, keysW])
  constructor
  · rw [handle_request_eq]
    split
    · exact h1
    · show insertBeforeWrite []
        ((runReqs initW reqs).1.trace ++ [WEvent.shutdown])
      rw [ibw_append]
      exact ⟨h1, trivial⟩
  · intro i hi
    rw [writtenIds_handle_request] at hi
    rw [handle_request_waiters]
    exact h2 i hi

/-- C1: `auth` returns `Ok(())` exactly when the worker's response carries a
success result, passes a worker `AuthError` through unchanged, returns
`ERR_SEND_TO_SERVER` exactly when the queue submission fails because the
receiving end is gone, and returns `ERR_RECV_FROM_SERVER` exactly when the
reply slot is dropped before fulfillment.  The `exactly` directions for the
two transport codes rest on the spec's error taxonomy: a backend
`AuthError` does not carry a reserved transport code. -/
theorem auth_result_characterization (send : SendOutcome) (recv : RecvOutcome)
    (hback : ∀ e : PamError, recv = RecvOutcome.fulfilled (Except.error e) →
      e.code ≠ ERR_SEND_TO_SERVER ∧ e.code ≠ ERR_RECV_FROM_SERVER) :
    (authResult send recv = Except.ok () ↔
      send = SendOutcome.sent ∧ recv = RecvOutcome.fulfilled (Except.ok ())) ∧
    (∀ r, send = SendOutcome.sent → recv = RecvOutcome.fulfilled r →
      authResult send recv = r) ∧
    (authResult send recv = Except.error ⟨ERR_SEND_TO_SERVER⟩ ↔
      send = SendOutcome.receiverGone) ∧
    (authResult send recv = Except.error ⟨ERR_RECV_FROM_SERVER⟩ ↔
      (send = SendOutcome.sent ∧ recv = RecvOutcome.dropped)) := by
  cases send with
  | receiverGone =>
      refine ⟨?_, ?_, ?_, ?_⟩
      · exact iff_of_false (fun hc => by
            have hc2 : Except.error (⟨ERR_SEND_TO_SERVER⟩ : PamError) =
                Except.ok () := hc
            simp at hc2)
          (fun hc => by simp at hc)
      · intro r h1 _
        exact absurd h1 (by simp)
      · exact iff_of_true rfl rfl
      · refine iff_of_false ?_ (fun hc => by simp at hc)
        intro hc
        have hc2 : Except.error (⟨ERR_SEND_TO_SERVER⟩ : PamError) =
            Except.error (⟨ERR_RECV_FROM_SERVER⟩ : PamError) := hc
        have h4 := congrArg PamError.code (Except.error.inj hc2)
        simp [ERR_SEND_TO_SERVER, ERR_RECV_FROM_SERVER] at h4
  | sent =>
      cases recv with
      | dropped =>
          refine ⟨?_, ?_, ?_, ?_⟩
          · exact iff_of_false (fun hc => by
                have hc2 : Except.error (⟨ERR_RECV_FROM_SERVER⟩ : PamError) =
                    Except.ok () := hc
                simp at hc2)
              (fun hc => by simp at hc)
          · intro r _ h2
            exact absurd h2 (by simp)
          · refine iff_of_false ?_ (fun hc => by simp at hc)
            intro hc
            have hc2 : Except.error (⟨ERR_RECV_FROM_SERVER⟩ : PamError) =
                Except.error (⟨ERR_SEND_TO_SERVER⟩ : PamError) := hc
            have h4 := congrArg PamError.code (Except.error.inj hc2)
            simp [ERR_SEND_TO_SERVER, ERR_RECV_FROM_SERVER] at h4
          · exact iff_of_true rfl ⟨rfl, rfl⟩
      | fulfilled r0 =>
          have hpass : ∀ r, SendOutcome.sent = SendOutcome.sent →
              RecvOutcome.fulfilled r0 = RecvOutcome.fulfilled r →
              authResult SendOutcome.sent (RecvOutcome.fulfilled r0) = r := by
            intro r _ h2
            rw [← RecvOutcome.fulfilled.inj h2]
            rfl
          cases r0 with
          | ok u =>
              cases u
              refine ⟨iff_of_true rfl ⟨rfl, rfl⟩, hpass, ?_, ?_⟩
              · exact iff_of_false
                  (fun hc => by
                    have hc2 : Except.ok () =
                        Except.error (⟨ERR_SEND_TO_SERVER⟩ : PamError) := hc
                    simp at hc2)
                  (fun hc => by simp at hc)
              · exact iff_of_false
                  (fun hc => by
                    have hc2 : Except.ok () =
                        Except.error (⟨ERR_RECV_FROM_SERVER⟩ : PamError) := hc
                    simp at hc2)
                  (fun hc => by simp at hc)
          | error e =>
              obtain ⟨hb1, hb2⟩ := hback e rfl
              refine ⟨?_, hpass, ?_, ?_⟩
              · exact iff_of_false
                  (fun hc => by
                    have hc2 : Except.error e = Except.ok () := hc
                    simp at hc2)
                  (fun hc => by simp at hc)
              · refine iff_of_false ?_ (fun hc => by simp at hc)
                intro hc
                have hc2 : Except.error e =
                    Except.error (⟨ERR_SEND_TO_SERVER⟩ : PamError) := hc
                exact hb1 (congrArg PamError.code (Except.error.inj hc2))
              · refine iff_of_false ?_ (fun hc => by simp at hc)
                intro hc
                have hc2 : Except.error e =
                    Except.error (⟨ERR_RECV_FROM_SERVER⟩ : PamError) := hc
                exact hb2 (congrArg PamError.code (Except.error.inj hc2))

/-- Witness for the auth outcome characterization at a concrete successful
authentication. -/
theorem auth_result_characterization_witness :
    (∀ e : PamError,
      RecvOutcome.fulfilled (Except.ok ()) = RecvOutcome.fulfilled (Except.error e) →
      e.code ≠ ERR_SEND_TO_SERVER ∧ e.code ≠ ERR_RECV_FROM_SERVER) ∧
    ((authResult SendOutcome.sent (RecvOutcome.fulfilled (Except.ok ())) = Except.ok () ↔
      SendOutcome.sent = SendOutcome.sent ∧
        RecvOutcome.fulfilled (Except.ok ()) = RecvOutcome.fulfilled (Except.ok ())) ∧
    (∀ r, SendOutcome.sent = SendOutcome.sent →
      RecvOutcome.fulfilled (Except.ok ()) = RecvOutcome.fulfilled r →
      authResult SendOutcome.sent (RecvOutcome.fulfilled (Except.ok ())) = r) ∧
    (authResult SendOutcome.sent (RecvOutcome.fulfilled (Except.ok ())) =
        Except.error ⟨ERR_SEND_TO_SERVER⟩ ↔
      SendOutcome.sent = SendOutcome.receiverGone) ∧
    (authResult SendOutcome.sent (RecvOutcome.fulfilled (Except.ok ())) =
        Except.error ⟨ERR_RECV_FROM_SERVER⟩ ↔
      (SendOutcome.sent = SendOutcome.sent ∧
        RecvOutcome.fulfilled (Except.ok ()) = RecvOutcome.dropped))) :=
  ⟨fun e h => absurd (RecvOutcome.fulfilled.inj h) (by simp),
   auth_result_characterization SendOutcome.sent (RecvOutcome.fulfilled (Except.ok ()))
     (fun e h => absurd (RecvOutcome.fulfilled.inj h) (by simp))⟩

/-- C8: across any number of `auth` calls through clones of one handle, the
pump task is spawned exactly once, during the first call; later calls never
spawn it again (the guard state is a fixpoint afterwards). -/
theorem lazy_task_spawn_once (t n : Nat) (h : 1 ≤ n) :
    (authOnceStep^[n] (initOnce t)).spawned = [t] ∧
    (authOnceStep (initOnce t)).spawned = [t] ∧
    (∀ m, (authOnceStep^[m] (initOnce t)).spawned.length ≤ 1) := by
  obtain ⟨m, rfl⟩ : ∃ m, n = m + 1 := ⟨n - 1, by omega⟩
  refine ⟨by rw [authOnceStep_iterate], by rw [authOnceStep_init], ?_⟩
  intro m2
  cases m2 with
  | zero => simp [initOnce]
  | succ m3 => rw [authOnceStep_iterate]; simp

/-- Witness for the exactly-once spawn at three calls. -/
theorem lazy_task_spawn_once_witness :
    (1 : Nat) ≤ 3 ∧
    ((authOnceStep^[3] (initOnce 9)).spawned = [9] ∧
    (authOnceStep (initOnce 9)).spawned = [9] ∧
    (∀ m, (authOnceStep^[m] (initOnce 9)).spawned.length ≤ 1)) :=
  ⟨by decide, lazy_task_spawn_once 9 3 (by decide)⟩

/-- C10: the request queue behaves as a rendezvous queue with zero
buffering: in every reachable channel state each sender has at most one
offer outstanding (the offer keys are duplicate-free), and an offer can
only be consumed — completing its send — by a step in which the write loop
is ready to accept it. -/
theorem rendezvous_channel_properties (st st2 : ChanState)
    (hre : ChanReachable st) (hstep : ChanStep st st2) :
    (st.offers.map Prod.fst).Nodup ∧
    (∀ s x, (s, x) ∈ st.offers → (s, x) ∉ st2.offers →
      st.recvReady = true) := by
  refine ⟨chanReachable_nodup st hre, ?_⟩
  intro s x hmem hnot
  cases hstep with
  | sendStart s2 x2 hfree => exact absurd (List.mem_cons_of_mem _ hmem) hnot
  | recvArrive => exact absurd hmem hnot
  | handoff s2 x2 hr2 hm2 => exact hr2

/-- Witness for the rendezvous-queue properties at the initial state and a
receiver-arrival step. -/
theorem rendezvous_channel_properties_witness :
    ChanReachable chanInit ∧
    ChanStep chanInit { offers := [], recvReady := true } ∧
    ((chanInit.offers.map Prod.fst).Nodup ∧
    (∀ s x, (s, x) ∈ chanInit.offers →
      (s, x) ∉ ({ offers := [], recvReady := true } : ChanState).offers →
      chanInit.recvReady = true)) :=
  ⟨Relation.ReflTransGen.refl, ChanStep.recvArrive chanInit,
   rendezvous_channel_properties chanInit { offers := [], recvReady := true }
     Relation.ReflTransGen.refl (ChanStep.recvArrive chanInit)⟩

end PamClient
